import Mathlib

/-!
Verification of the debug-metrics event-recording engine.

The development shallowly embeds `src/debug_metrics.rs` (and the
configuration record of `src/config.rs`): Rust `BTreeMap`s become sorted
association lists maintained by `listInsert`, `BTreeSet`s become sorted
string lists maintained by `setInsert`, the regex facility becomes an
explicit match function `rm : String → String → Bool` threaded through the
operations (the concrete scenarios only ever register the pattern ".+",
whose `is_match` semantics is "the candidate is non-empty"), and the output
sink becomes the trace of write/flush operations that `Drop` performs.
All code is modelled in the debug build (`#[cfg(debug_assertions)]` on).
`u64` counters are modelled as `Nat`: the engine only ever adds 1 or stores
a caller-supplied value, and a debug-build Rust `+=` aborts on overflow
rather than wrapping, so no modular reduction arises in the modelled
behaviour.
-/

/-- Lexicographic order on character lists, mirroring the ordering
`BTreeMap`/`BTreeSet` use on `String` keys (codepoint order coincides with
Rust's UTF-8 byte order). -/
def charListLt : List Char → List Char → Bool
  | [], [] => false
  | [], _ :: _ => true
  | _ :: _, [] => false
  | c :: cs, d :: ds => if c < d then true else if c = d then charListLt cs ds else false

/-- Strict lexicographic order on strings. -/
def strLt (a b : String) : Bool :=
  charListLt a.data b.data

/-- Lookup in an association list, first occurrence wins
(`BTreeMap::get`). -/
def listGet {α : Type} (k : String) : List (String × α) → Option α
  | [] => none
  | (k', v') :: rest => if k = k' then some v' else listGet k rest

/-- Sorted-map insert (`BTreeMap::insert`): keeps keys strictly increasing,
overwrites an existing binding. -/
def listInsert {α : Type} (k : String) (v : α) : List (String × α) → List (String × α)
  | [] => [(k, v)]
  | (k', v') :: rest =>
    if strLt k k' then (k, v) :: (k', v') :: rest
    else if k = k' then (k, v) :: rest
    else (k', v') :: listInsert k v rest

/-- Membership in a string set (`BTreeSet::contains`). -/
def strContains : List String → String → Bool
  | [], _ => false
  | y :: rest, x => if x = y then true else strContains rest x

/-- Sorted-set insert (`BTreeSet::insert`). -/
def setInsert (k : String) : List String → List String
  | [] => [k]
  | x :: rest =>
    if strLt k x then k :: x :: rest
    else if k = x then x :: rest
    else x :: setInsert k rest

/-- `src/config.rs`: `DebugMetricsConfig`. -/
structure DebugMetricsConfig where
  process_all_events : Bool
  record_label_changes : Bool
  all_labels_every_event : Bool
deriving DecidableEq

/-- `DebugMetricsConfig::default()`: all three policies off. -/
def DebugMetricsConfig.defaultOff : DebugMetricsConfig :=
  ⟨false, false, false⟩

/-- `DebugMetricsConfig::default_on()`: all three policies on. -/
def DebugMetricsConfig.default_on : DebugMetricsConfig :=
  ⟨true, true, true⟩

/-- `src/debug_metrics.rs`: `enum EventType`. -/
inductive EventType where
  | MetricChange (metric : String) (count : Nat)
      (dependencies : List (String × Nat)) (labels : List (String × String))
  | LabelChange (label : String) (value : String)
      (dependencies : List (String × Nat)) (labels : List (String × String))
  | CascadeMetricChange (cause : String) (metric : String) (count : Nat)
      (dependencies : List (String × Nat)) (labels : List (String × String))
  | CascadeLabelChange (cause : String) (label : String) (value : String)
      (dependencies : List (String × Nat)) (labels : List (String × String))
deriving DecidableEq

/-- The `dependencies` map of an event. -/
def EventType.dependencies : EventType → List (String × Nat)
  | .MetricChange _ _ d _ => d
  | .LabelChange _ _ d _ => d
  | .CascadeMetricChange _ _ _ d _ => d
  | .CascadeLabelChange _ _ _ d _ => d

/-- The `labels` map of an event. -/
def EventType.labelsMap : EventType → List (String × String)
  | .MetricChange _ _ _ l => l
  | .LabelChange _ _ _ l => l
  | .CascadeMetricChange _ _ _ _ l => l
  | .CascadeLabelChange _ _ _ _ l => l

/-- `EventType::promote_to_cascade`. The two cascade arms are
`unreachable!` in the source (and indeed unreachable from the public API,
which only promotes freshly built `MetricChange`/`LabelChange` events); the
model leaves them unchanged. -/
def EventType.promote_to_cascade (e : EventType) (cause : String) : EventType :=
  match e with
  | .MetricChange metric count dependencies labels =>
      .CascadeMetricChange cause metric count dependencies labels
  | .LabelChange label value dependencies labels =>
      .CascadeLabelChange cause label value dependencies labels
  | e => e

/-- `src/debug_metrics.rs`: `struct DebugMetrics`. The output writer is not
a field of the model; the teardown trace it would receive is computed by
`DebugMetrics.dropFlush`. -/
structure DebugMetrics where
  rules : List (String × List String)
  counts : List (String × Nat)
  labels : List (String × String)
  events : List EventType
  drop_print : List String
  config : DebugMetricsConfig
deriving DecidableEq

/-- `DebugMetrics::new(writer, config)`. -/
def DebugMetrics.new (config : DebugMetricsConfig) : DebugMetrics :=
  ⟨[], [], [], [], [], config⟩

/-- `src/debug_metrics.rs`: private `enum Value`. -/
inductive Value where
  | Metric (c : Nat)
  | Label (l : String)
deriving DecidableEq

/-- One store loop of `matching_rules_for_regexes` for one pattern:
`for (k, v) in store { if !found.contains(k) && re.is_match(k) { found.insert(k); ret.insert(k, v) } }`.
The source spells this loop out twice, once over `counts` and once over
`labels`; the model instantiates it at both value types. -/
def scanStore {α : Type} (rm : String → String → Bool) (patt : String) :
    List (String × α) → List String × List (String × α) →
    List String × List (String × α)
  | [], st => st
  | (k, v) :: rest, (found, ret) =>
    if !strContains found k && rm patt k then
      scanStore rm patt rest (setInsert k found, listInsert k v ret)
    else
      scanStore rm patt rest (found, ret)

/-- The outer pattern loop of `matching_rules_for_regexes`: for each
pattern, scan the counter store and then the label store, carrying the
`found` set and the two result maps. -/
def scanPatterns (rm : String → String → Bool)
    (counts : List (String × Nat)) (labels : List (String × String)) :
    List String → List String × List (String × Nat) × List (String × String) →
    List String × List (String × Nat) × List (String × String)
  | [], st => st
  | patt :: ps, (found, cret, lret) =>
    let fc := scanStore rm patt counts (found, cret)
    let fl := scanStore rm patt labels (fc.1, lret)
    scanPatterns rm counts labels ps (fl.1, fc.2, fl.2)

/-- `DebugMetrics::matching_rules_for_regexes`. -/
def DebugMetrics.matching_rules_for_regexes (rm : String → String → Bool)
    (regexes : List String) (counts : List (String × Nat))
    (labels : List (String × String)) :
    List (String × Nat) × List (String × String) :=
  let st := scanPatterns rm counts labels regexes ([], [], [])
  (st.2.1, st.2.2)

/-- `DebugMetrics::get_metric_or_label`. -/
def DebugMetrics.get_metric_or_label (dm : DebugMetrics) (key : String) : Option Value :=
  match listGet key dm.counts with
  | some count => some (Value.Metric count)
  | none =>
    match listGet key dm.labels with
    | some label => some (Value.Label label)
    | none => none

/-- `DebugMetrics::maybe_find_matching_rule`. -/
def DebugMetrics.maybe_find_matching_rule (rm : String → String → Bool)
    (dm : DebugMetrics) (event : Option EventType) (metric_or_label : String) :
    Option EventType :=
  match listGet metric_or_label dm.rules with
  | none => event
  | some rules =>
    let m := DebugMetrics.matching_rules_for_regexes rm rules dm.counts dm.labels
    match dm.get_metric_or_label metric_or_label with
    | none => event
    | some (Value.Metric c) =>
      some (.MetricChange metric_or_label c m.1 m.2)
    | some (Value.Label l) =>
      some (.LabelChange metric_or_label l m.1 m.2)

/-- `DebugMetrics::maybe_include_all_events`. -/
def DebugMetrics.maybe_include_all_events (dm : DebugMetrics)
    (event : Option EventType) (metric_or_label : String) : Option EventType :=
  if event.isNone && dm.config.process_all_events then
    match dm.get_metric_or_label metric_or_label with
    | none => event
    | some (Value.Metric count) =>
      some (.MetricChange metric_or_label count [] [])
    | some (Value.Label label) =>
      some (.LabelChange metric_or_label label [] [])
  else event

/-- One step of `maybe_include_all_labels_with_event`'s loop over
`self.labels`: inserts the pair into the event's `labels` map. The cascade
arms are `unreachable!` in the source (call sites only ever pass freshly
built `MetricChange`/`LabelChange` events); the model leaves them
unchanged. -/
def includeLabelStep (e : EventType) (kv : String × String) : EventType :=
  match e with
  | .MetricChange metric count dependencies labels =>
      .MetricChange metric count dependencies (listInsert kv.1 kv.2 labels)
  | .LabelChange label value dependencies labels =>
      .LabelChange label value dependencies (listInsert kv.1 kv.2 labels)
  | e => e

/-- `DebugMetrics::maybe_include_all_labels_with_event`. -/
def DebugMetrics.maybe_include_all_labels_with_event (dm : DebugMetrics)
    (event : Option EventType) : Option EventType :=
  if dm.config.all_labels_every_event then
    match event with
    | none => none
    | some e => some (dm.labels.foldl includeLabelStep e)
  else event

/-- `if let Some(event) = event { self.events.push(event) }`: append the
event, when there is one, to the Event Log. -/
def pushEvent (dm : DebugMetrics) (event : Option EventType) : DebugMetrics :=
  match event with
  | none => dm
  | some e => { dm with events := dm.events ++ [e] }

/-- The body of the label loop shared by `inc` and `set`: store the label,
run the rule / capture-all / enrichment pipeline for the label key, and
append the resulting event (if any) promoted to a cascade with the counter
key as cause. In `inc` this body runs only for pairs with a non-empty key;
in `set` it runs for every pair. -/
def DebugMetrics.cascadeLabelPair (rm : String → String → Bool)
    (key : String) (dm : DebugMetrics) (label_key label_value : String) :
    DebugMetrics :=
  let dm := { dm with labels := listInsert label_key label_value dm.labels }
  let event := dm.maybe_find_matching_rule rm none label_key
  let event := dm.maybe_include_all_events event label_key
  let event := dm.maybe_include_all_labels_with_event event
  pushEvent dm (event.map (fun e => e.promote_to_cascade key))

/-- `DebugMetrics::inc` (debug build). Label pairs with an empty key are
skipped. -/
def DebugMetrics.inc (rm : String → String → Bool) (dm : DebugMetrics)
    (key : String) (labels : List (String × String)) : DebugMetrics :=
  let dm := { dm with counts := listInsert key ((listGet key dm.counts).getD 0 + 1) dm.counts }
  let dm := labels.foldl
    (fun dm kv =>
      if kv.1.isEmpty then dm
      else DebugMetrics.cascadeLabelPair rm key dm kv.1 kv.2) dm
  let event := dm.maybe_find_matching_rule rm none key
  let event := dm.maybe_include_all_events event key
  let event := dm.maybe_include_all_labels_with_event event
  pushEvent dm event

/-- `DebugMetrics::set` (debug build). Unlike `inc`, the source's label
loop has no empty-key skip. -/
def DebugMetrics.set (rm : String → String → Bool) (dm : DebugMetrics)
    (key : String) (value : Nat) (labels : List (String × String)) : DebugMetrics :=
  let dm := { dm with counts := listInsert key value dm.counts }
  let dm := labels.foldl
    (fun dm kv => DebugMetrics.cascadeLabelPair rm key dm kv.1 kv.2) dm
  let event := dm.maybe_find_matching_rule rm none key
  let event := dm.maybe_include_all_events event key
  let event := dm.maybe_include_all_labels_with_event event
  pushEvent dm event

/-- `DebugMetrics::set_label` (debug build). -/
def DebugMetrics.set_label (rm : String → String → Bool) (dm : DebugMetrics)
    (key value : String) : DebugMetrics :=
  let dm := { dm with labels := listInsert key value dm.labels }
  let event := dm.maybe_find_matching_rule rm none key
  let event := dm.maybe_include_all_events event key
  let event := dm.maybe_include_all_labels_with_event event
  pushEvent dm event

/-- `DebugMetrics::add_recording_rule` (debug build): unions the patterns
into the key's pattern set, creating it when absent. -/
def DebugMetrics.add_recording_rule (dm : DebugMetrics) (metric : String)
    (additional : List String) : DebugMetrics :=
  match listGet metric dm.rules with
  | some existing =>
    { dm with rules := listInsert metric (additional.foldl (fun s p => setInsert p s) existing) dm.rules }
  | none =>
    { dm with rules := listInsert metric (additional.foldl (fun s p => setInsert p s) []) dm.rules }

/-- `DebugMetrics::add_drop_hook` (debug build). -/
def DebugMetrics.add_drop_hook (dm : DebugMetrics) (key : String) : DebugMetrics :=
  { dm with drop_print := setInsert key dm.drop_print }

/-- The filter predicate of `DebugMetrics::events_for_key`. -/
def eventMatchesKey (key : String) : EventType → Bool
  | .MetricChange metric _ _ _ => metric == key
  | .LabelChange label _ _ _ => label == key
  | .CascadeMetricChange cause metric _ _ _ => metric == key || cause == key
  | .CascadeLabelChange cause label _ _ _ => label == key || cause == key

/-- `DebugMetrics::events_for_key` (debug build). -/
def DebugMetrics.events_for_key (dm : DebugMetrics) (key : String) : List EventType :=
  dm.events.filter (eventMatchesKey key)

/-- One operation the output sink can receive. -/
inductive SinkOp where
  | write (line : String)
  | flush
deriving DecidableEq

/-- The `Debug` rendering of the merged `all_deps` map,
`BTreeMap<String, String>`: entries in key order, keys and values quoted.
The engine's keys and values never contain characters `Debug` would
escape. -/
def fmtDebugMap (m : List (String × String)) : String :=
  "\x7b" ++ String.intercalate ", " (m.map (fun kv => "\"" ++ kv.1 ++ "\": \"" ++ kv.2 ++ "\"")) ++ "\x7d"

/-- The `all_deps` map each `Drop` arm builds: numeric dependencies
stringified, then the event's labels inserted over them. -/
def mergeAllDeps (dependencies : List (String × Nat))
    (labels : List (String × String)) : List (String × String) :=
  let m := dependencies.foldl (fun m kv => listInsert kv.1 (toString kv.2) m) []
  labels.foldl (fun m kv => listInsert kv.1 kv.2 m) m

/-- The event loop of `impl Drop for DebugMetrics`: the writes performed,
in order. Each arm checks `process_all_events | drop_print.contains(..)`
and formats its own line. -/
def dropWrites (pae : Bool) (drop_print : List String) : List EventType → List SinkOp
  | [] => []
  | e :: rest =>
    (match e with
     | .MetricChange metric count dependencies labels =>
       if pae || strContains drop_print metric then
         [SinkOp.write (metric ++ ": " ++ toString count ++ " :: " ++
           fmtDebugMap (mergeAllDeps dependencies labels) ++ "\n")]
       else []
     | .LabelChange label value dependencies labels =>
       if pae || strContains drop_print label then
         [SinkOp.write (label ++ ": " ++ value ++ " :: " ++
           fmtDebugMap (mergeAllDeps dependencies labels) ++ "\n")]
       else []
     | .CascadeMetricChange cause metric count dependencies labels =>
       if pae || strContains drop_print metric then
         [SinkOp.write (metric ++ " (caused by " ++ cause ++ "): " ++ toString count ++ " :: " ++
           fmtDebugMap (mergeAllDeps dependencies labels) ++ "\n")]
       else []
     | .CascadeLabelChange cause label value dependencies labels =>
       if pae || strContains drop_print label then
         [SinkOp.write (label ++ " (caused by " ++ cause ++ "): " ++ value ++ " :: " ++
           fmtDebugMap (mergeAllDeps dependencies labels) ++ "\n")]
       else []) ++ dropWrites pae drop_print rest

/-- `impl Drop for DebugMetrics`: the full sink trace of teardown — the
event loop's writes followed by the one final flush. -/
def DebugMetrics.dropFlush (dm : DebugMetrics) : List SinkOp :=
  dropWrites dm.config.process_all_events dm.drop_print dm.events ++ [SinkOp.flush]

/-- `Regex::is_match` semantics for the only pattern the concrete scenarios
register: ".+" matches exactly the non-empty candidates. Any other pattern
string is not interpreted. -/
def reDotPlus (patt s : String) : Bool :=
  patt == ".+" && !s.isEmpty

/-- One call to a public mutating operation of `DebugMetricsTrait`. -/
inductive Op where
  | addRule (key : String) (patterns : List String)
  | addDropHook (key : String)
  | incOp (key : String) (labels : List (String × String))
  | setOp (key : String) (value : Nat) (labels : List (String × String))
  | setLabelOp (key : String) (value : String)
deriving DecidableEq

/-- Whether an operation is an `inc` or `set` call. -/
def Op.isIncOrSet : Op → Bool
  | .incOp _ _ => true
  | .setOp _ _ _ => true
  | _ => false

/-- Apply one public operation to the engine. -/
def applyOp (rm : String → String → Bool) (dm : DebugMetrics) : Op → DebugMetrics
  | .addRule key patterns => dm.add_recording_rule key patterns
  | .addDropHook key => dm.add_drop_hook key
  | .incOp key labels => dm.inc rm key labels
  | .setOp key value labels => dm.set rm key value labels
  | .setLabelOp key value => dm.set_label rm key value

/-- Run a sequence of public operations, first to last. -/
def runOps (rm : String → String → Bool) (dm : DebugMetrics) : List Op → DebugMetrics
  | [] => dm
  | op :: ops => runOps rm (applyOp rm dm op) ops

/-- All three configuration policies off (`DebugMetricsConfig::default()`). -/
def cfgOff : DebugMetricsConfig :=
  ⟨false, false, false⟩

/-- Only `process_all_events` on: the configuration claim C3 pins. -/
def cfgAllEvents : DebugMetricsConfig :=
  ⟨true, false, false⟩

/-- Scenario A: recording rule ".+" on "stage", drop hook on "stage",
`set_label("stage","zero")`, `inc("metric", [("stage","one")])`, on a fresh
engine with every configuration boolean false. -/
def dmScenarioA : DebugMetrics :=
  ((((DebugMetrics.new cfgOff).add_recording_rule "stage" [".+"]).add_drop_hook
    "stage").set_label reDotPlus "stage" "zero").inc reDotPlus "metric" [("stage", "one")]

/-- Scenario B: `set_label("stage","zero")` then
`inc("metric", [("stage","one")])` on a fresh engine whose only enabled
policy is `process_all_events`. -/
def dmScenarioB : DebugMetrics :=
  (((DebugMetrics.new cfgAllEvents).set_label reDotPlus "stage" "zero").inc
    reDotPlus "metric" [("stage", "one")])

/-- The failing input of the empty-label-key claim: `set("k", 5, [("", "v")])`
on a fresh engine with `process_all_events` on. -/
def dmEmptyKeySet : DebugMetrics :=
  (DebugMetrics.new cfgAllEvents).set reDotPlus "k" 5 [("", "v")]

/-- A fresh engine with a recording rule ".+" on "m": the concrete engine
the rule-self-capture witness instantiates. -/
def dmRuleOnM : DebugMetrics :=
  (DebugMetrics.new cfgOff).add_recording_rule "m" [".+"]

/-- A concrete `inc`/`set`-only call sequence for the quiet-engine witness. -/
def opsQuiet : List Op :=
  [Op.incOp "a" [("x", "y")], Op.setOp "b" 2 [("", "z")], Op.incOp "a" []]

/-- The display key teardown filters an event on: the metric name of
(cascade) metric changes, the label name of (cascade) label changes. -/
def displayKey : EventType → String
  | .MetricChange metric _ _ _ => metric
  | .LabelChange label _ _ _ => label
  | .CascadeMetricChange _ metric _ _ _ => metric
  | .CascadeLabelChange _ label _ _ _ => label

/-- The formatted teardown line of an event. -/
def eventLine : EventType → String
  | .MetricChange metric count dependencies labels =>
    metric ++ ": " ++ toString count ++ " :: " ++
      fmtDebugMap (mergeAllDeps dependencies labels) ++ "\n"
  | .LabelChange label value dependencies labels =>
    label ++ ": " ++ value ++ " :: " ++
      fmtDebugMap (mergeAllDeps dependencies labels) ++ "\n"
  | .CascadeMetricChange cause metric count dependencies labels =>
    metric ++ " (caused by " ++ cause ++ "): " ++ toString count ++ " :: " ++
      fmtDebugMap (mergeAllDeps dependencies labels) ++ "\n"
  | .CascadeLabelChange cause label value dependencies labels =>
    label ++ " (caused by " ++ cause ++ "): " ++ value ++ " :: " ++
      fmtDebugMap (mergeAllDeps dependencies labels) ++ "\n"

/-- The query relation of `events_for_key` as the spec states it: primary
key for the plain variants, primary key or cause for cascade variants. -/
def KeyRelevant (k : String) : EventType → Prop
  | .MetricChange metric _ _ _ => metric = k
  | .LabelChange label _ _ _ => label = k
  | .CascadeMetricChange cause metric _ _ _ => metric = k ∨ cause = k
  | .CascadeLabelChange cause label _ _ _ => label = k ∨ cause = k

/-- Overwrite the `record_label_changes` configuration bit. -/
def setRLC (b : Bool) (dm : DebugMetrics) : DebugMetrics :=
  { dm with config := { dm.config with record_label_changes := b } }

/-- Keys of an association list are strictly increasing. -/
def keysSorted {α : Type} (l : List (String × α)) : Prop :=
  l.Pairwise (fun a b => strLt a.1 b.1 = true)

/-- Both maps of an event have strictly increasing keys. -/
def eventMapsSorted (e : EventType) : Prop :=
  keysSorted e.dependencies ∧ keysSorted e.labelsMap


theorem charListLt_irrefl (l : List Char) : charListLt l l = false := by
  induction l with
  | nil => rfl
  | cons c cs ih => simp [charListLt, ih]

theorem charListLt_trans {a b c : List Char} (h1 : charListLt a b = true)
    (h2 : charListLt b c = true) : charListLt a c = true := by
  induction a generalizing b c with
  | nil =>
    cases b with
    | nil => exact h2
    | cons y ys =>
      cases c with
      | nil => simp [charListLt] at h2
      | cons z zs => rfl
  | cons x xs ih =>
    cases b with
    | nil => simp [charListLt] at h1
    | cons y ys =>
      cases c with
      | nil => simp [charListLt] at h2
      | cons z zs =>
        simp only [charListLt] at h1 h2 ⊢
        by_cases hxy : x < y
        · by_cases hyz : y < z
          · simp [lt_trans hxy hyz]
          · simp only [hyz, if_false] at h2
            by_cases heq : y = z
            · subst heq; simp [hxy]
            · simp [heq] at h2
        · simp only [hxy, if_false] at h1
          by_cases heq : x = y
          · subst heq
            simp only [if_pos rfl] at h1
            by_cases hyz : x < z
            · simp [hyz]
            · simp only [hyz, if_false] at h2 ⊢
              by_cases heq2 : x = z
              · subst heq2; simp only [if_pos rfl] at h2 ⊢; exact ih h1 h2
              · simp [heq2] at h2
          · simp [heq] at h1

theorem charListLt_total {a b : List Char} (h : charListLt a b = false)
    (hne : a ≠ b) : charListLt b a = true := by
  induction a generalizing b with
  | nil =>
    cases b with
    | nil => exact absurd rfl hne
    | cons y ys => simp [charListLt] at h
  | cons x xs ih =>
    cases b with
    | nil => rfl
    | cons y ys =>
      simp only [charListLt] at h ⊢
      by_cases hxy : x < y
      · simp [hxy] at h
      · simp only [hxy, if_false] at h
        by_cases heq : x = y
        · subst heq
          simp only [if_pos rfl] at h
          have hne2 : xs ≠ ys := by
            intro hh; exact hne (by rw [hh])
          simp [lt_irrefl, ih h hne2]
        · have hlt : y < x := by
            rcases lt_trichotomy x y with h1 | h1 | h1
            · exact absurd h1 hxy
            · exact absurd h1 heq
            · exact h1
          simp [hlt]

theorem strLt_irrefl (a : String) : strLt a a = false :=
  charListLt_irrefl a.data

theorem strLt_trans {a b c : String} (h1 : strLt a b = true) (h2 : strLt b c = true) :
    strLt a c = true :=
  charListLt_trans h1 h2

theorem strLt_total {a b : String} (h : strLt a b = false) (hne : a ≠ b) :
    strLt b a = true := by
  refine charListLt_total h ?_
  intro hh
  exact hne (String.toList_inj.mp hh)

theorem strLt_ne {a b : String} (h : strLt a b = true) : a ≠ b := by
  intro hh
  subst hh
  rw [strLt_irrefl] at h
  exact Bool.false_ne_true h

theorem listGet_listInsert {α : Type} (k x : String) (v : α) (l : List (String × α)) :
    listGet x (listInsert k v l) = if x = k then some v else listGet x l := by
  induction l with
  | nil => simp [listInsert, listGet]
  | cons p rest ih =>
    obtain ⟨k', v'⟩ := p
    simp only [listInsert]
    by_cases h1 : strLt k k'
    · simp only [h1, if_true, listGet]
    · by_cases h2 : k = k'
      · subst h2
        simp only [h1, Bool.false_eq_true, if_false, if_true, listGet]
        by_cases hx : x = k <;> simp [hx]
      · simp only [h1, h2, Bool.false_eq_true, if_false, listGet, ih]
        by_cases hx : x = k' <;> by_cases hk : x = k <;> simp_all

theorem mem_listInsert {α : Type} {p : String × α} {k : String} {v : α}
    {l : List (String × α)} (h : p ∈ listInsert k v l) : p = (k, v) ∨ p ∈ l := by
  induction l with
  | nil =>
    simp only [listInsert, List.mem_singleton] at h
    exact Or.inl h
  | cons q rest ih =>
    obtain ⟨k', v'⟩ := q
    simp only [listInsert] at h
    by_cases h1 : strLt k k'
    · rw [if_pos h1] at h
      rcases List.mem_cons.mp h with h | h
      · exact Or.inl h
      · exact Or.inr h
    · by_cases h2 : k = k'
      · rw [if_neg h1, if_pos h2] at h
        rcases List.mem_cons.mp h with h | h
        · exact Or.inl h
        · exact Or.inr (List.mem_cons.mpr (Or.inr h))
      · rw [if_neg h1, if_neg h2] at h
        rcases List.mem_cons.mp h with h | h
        · exact Or.inr (List.mem_cons.mpr (Or.inl h))
        · rcases ih h with h | h
          · exact Or.inl h
          · exact Or.inr (List.mem_cons.mpr (Or.inr h))

theorem keysSorted_listInsert {α : Type} (k : String) (v : α) {l : List (String × α)}
    (h : keysSorted l) : keysSorted (listInsert k v l) := by
  induction l with
  | nil => simp [listInsert, keysSorted]
  | cons q rest ih =>
    obtain ⟨k', v'⟩ := q
    rcases List.pairwise_cons.mp h with ⟨hall, hrest⟩
    simp only [listInsert]
    by_cases h1 : strLt k k'
    · rw [if_pos h1]
      refine List.Pairwise.cons ?_ h
      intro b hb
      rcases List.mem_cons.mp hb with rfl | hb
      · exact h1
      · exact strLt_trans h1 (hall b hb)
    · by_cases h2 : k = k'
      · rw [if_neg h1, if_pos h2]
        subst h2
        exact List.Pairwise.cons hall hrest
      · rw [if_neg h1, if_neg h2]
        refine List.Pairwise.cons ?_ (ih hrest)
        intro b hb
        have h1' : strLt k k' = false := by
          simpa using h1
        rcases mem_listInsert hb with rfl | hb
        · exact strLt_total h1' h2
        · exact hall b hb

theorem keysSorted_nodup {α : Type} {l : List (String × α)} (h : keysSorted l) :
    (l.map Prod.fst).Nodup := by
  refine List.pairwise_map.mpr ?_
  exact h.imp (fun hab => strLt_ne hab)


theorem strContains_setInsert (k x : String) (s : List String) :
    strContains (setInsert k s) x = if x = k then true else strContains s x := by
  induction s with
  | nil =>
    by_cases hx : x = k <;> simp [setInsert, strContains, hx]
  | cons y rest ih =>
    simp only [setInsert]
    by_cases h1 : strLt k y
    · rw [if_pos h1]
      simp only [strContains]
    · by_cases h2 : k = y
      · rw [if_neg h1, if_pos h2]
        subst h2
        simp only [strContains]
        by_cases hx : x = k <;> simp [hx]
      · rw [if_neg h1, if_neg h2]
        simp only [strContains, ih]
        by_cases hy : x = y <;> by_cases hx : x = k <;> simp_all

theorem scanStore_found {α : Type} (rm : String → String → Bool) (patt : String)
    (cs : List (String × α)) :
    ∀ (found : List String) (ret : List (String × α)) (x : String),
    strContains (scanStore rm patt cs (found, ret)).1 x =
      (strContains found x || (rm patt x && (listGet x cs).isSome)) := by
  induction cs with
  | nil =>
    intro found ret x
    simp [scanStore, listGet]
  | cons p rest ih =>
    obtain ⟨k, v⟩ := p
    intro found ret x
    simp only [scanStore]
    by_cases hc : (!strContains found k && rm patt k) = true
    · rw [if_pos hc, ih, strContains_setInsert]
      have hfk : strContains found k = false := by
        cases hb : strContains found k
        · rfl
        · rw [hb] at hc; simp at hc
      have hmk : rm patt k = true := by
        cases hb : rm patt k
        · rw [hb] at hc; simp at hc
        · rfl
      by_cases hx : x = k
      · subst hx
        simp [hfk, hmk, listGet]
      · rw [if_neg hx]
        simp only [listGet, if_neg hx]
    · rw [if_neg hc, ih]
      have hcor : strContains found k = true ∨ rm patt k = false := by
        cases hb : strContains found k
        · cases hm : rm patt k
          · exact Or.inr rfl
          · exfalso; apply hc; rw [hb, hm]; rfl
        · exact Or.inl rfl
      by_cases hx : x = k
      · subst hx
        rcases hcor with h | h <;> simp [h, listGet]
      · simp only [listGet, if_neg hx]

theorem scanStore_listGet {α : Type} (rm : String → String → Bool) (patt : String)
    (cs : List (String × α)) :
    ∀ (found : List String) (ret : List (String × α)) (x : String),
    listGet x (scanStore rm patt cs (found, ret)).2 =
      if (!strContains found x && rm patt x && (listGet x cs).isSome) then listGet x cs
      else listGet x ret := by
  induction cs with
  | nil =>
    intro found ret x
    simp [scanStore, listGet]
  | cons p rest ih =>
    obtain ⟨k, v⟩ := p
    intro found ret x
    simp only [scanStore]
    by_cases hc : (!strContains found k && rm patt k) = true
    · rw [if_pos hc, ih]
      have hfk : strContains found k = false := by
        cases hb : strContains found k
        · rfl
        · rw [hb] at hc; simp at hc
      have hmk : rm patt k = true := by
        cases hb : rm patt k
        · rw [hb] at hc; simp at hc
        · rfl
      by_cases hx : x = k
      · subst hx
        rw [strContains_setInsert]
        simp [listGet, listGet_listInsert, hfk, hmk]
      · rw [strContains_setInsert, if_neg hx, listGet_listInsert, if_neg hx]
        simp only [listGet, if_neg hx]
    · rw [if_neg hc, ih]
      have hcor : strContains found k = true ∨ rm patt k = false := by
        cases hb : strContains found k
        · cases hm : rm patt k
          · exact Or.inr rfl
          · exfalso; apply hc; rw [hb, hm]; rfl
        · exact Or.inl rfl
      by_cases hx : x = k
      · subst hx
        rcases hcor with h | h <;> simp [h, listGet]
      · simp only [listGet, if_neg hx]

theorem scanPatterns_listGet (rm : String → String → Bool)
    (counts : List (String × Nat)) (labels : List (String × String)) (ps : List String) :
    ∀ (found : List String) (cret : List (String × Nat)) (lret : List (String × String)),
    (∀ x, listGet x cret = if strContains found x then listGet x counts else none) →
    (∀ x, listGet x lret =
        if strContains found x && (listGet x counts).isNone then listGet x labels else none) →
    (∀ x, listGet x (scanPatterns rm counts labels ps (found, cret, lret)).2.1 =
        if strContains found x || ps.any (fun p => rm p x) then listGet x counts else none) ∧
    (∀ x, listGet x (scanPatterns rm counts labels ps (found, cret, lret)).2.2 =
        if (strContains found x || ps.any (fun p => rm p x)) && (listGet x counts).isNone
        then listGet x labels else none) := by
  induction ps with
  | nil =>
    intro found cret lret hc hl
    constructor
    · intro x
      simpa using hc x
    · intro x
      simpa using hl x
  | cons patt ps ih =>
    intro found cret lret hc hl
    simp only [scanPatterns]
    have hc2 : ∀ x,
        listGet x (scanStore rm patt counts (found, cret)).2 =
          if strContains (scanStore rm patt labels
              ((scanStore rm patt counts (found, cret)).1, lret)).1 x
          then listGet x counts else none := by
      intro x
      rw [scanStore_listGet, scanStore_found, scanStore_found, hc x]
      cases hF : strContains found x <;> cases hM : rm patt x <;>
        cases hco : listGet x counts <;> cases hla : listGet x labels <;>
          simp [hF, hM, hco, hla]
    have hl2 : ∀ x,
        listGet x (scanStore rm patt labels
            ((scanStore rm patt counts (found, cret)).1, lret)).2 =
          if strContains (scanStore rm patt labels
              ((scanStore rm patt counts (found, cret)).1, lret)).1 x &&
              (listGet x counts).isNone
          then listGet x labels else none := by
      intro x
      rw [scanStore_listGet, scanStore_found, scanStore_found, scanStore_found, hl x]
      cases hF : strContains found x <;> cases hM : rm patt x <;>
        cases hco : listGet x counts <;> cases hla : listGet x labels <;>
          simp [hF, hM, hco, hla]
    obtain ⟨ihc, ihl⟩ := ih _ _ _ hc2 hl2
    constructor
    · intro x
      rw [ihc x, scanStore_found, scanStore_found]
      simp only [List.any_cons]
      rcases Bool.eq_false_or_eq_true (strContains found x) with hF | hF <;>
        rcases Bool.eq_false_or_eq_true (rm patt x) with hM | hM <;>
          rcases Bool.eq_false_or_eq_true (ps.any (fun p => rm p x)) with hps | hps <;>
            cases hco : listGet x counts <;> cases hla : listGet x labels <;>
              simp [hF, hM, hps, hco, hla]
    · intro x
      rw [ihl x, scanStore_found, scanStore_found]
      simp only [List.any_cons]
      rcases Bool.eq_false_or_eq_true (strContains found x) with hF | hF <;>
        rcases Bool.eq_false_or_eq_true (rm patt x) with hM | hM <;>
          rcases Bool.eq_false_or_eq_true (ps.any (fun p => rm p x)) with hps | hps <;>
            cases hco : listGet x counts <;> cases hla : listGet x labels <;>
              simp [hF, hM, hps, hco, hla]

theorem matching_rules_listGet_counts (rm : String → String → Bool)
    (patts : List String) (counts : List (String × Nat)) (labels : List (String × String))
    (x : String) :
    listGet x (DebugMetrics.matching_rules_for_regexes rm patts counts labels).1 =
      if patts.any (fun p => rm p x) then listGet x counts else none := by
  have h := (scanPatterns_listGet rm counts labels patts [] [] []
    (fun x => by simp [listGet, strContains])
    (fun x => by simp [listGet, strContains])).1 x
  simpa [DebugMetrics.matching_rules_for_regexes, strContains] using h

theorem matching_rules_listGet_labels (rm : String → String → Bool)
    (patts : List String) (counts : List (String × Nat)) (labels : List (String × String))
    (x : String) :
    listGet x (DebugMetrics.matching_rules_for_regexes rm patts counts labels).2 =
      if patts.any (fun p => rm p x) && (listGet x counts).isNone
      then listGet x labels else none := by
  have h := (scanPatterns_listGet rm counts labels patts [] [] []
    (fun x => by simp [listGet, strContains])
    (fun x => by simp [listGet, strContains])).2 x
  simpa [DebugMetrics.matching_rules_for_regexes, strContains] using h

theorem keysSorted_scanStore {α : Type} (rm : String → String → Bool) (patt : String)
    (cs : List (String × α)) :
    ∀ (found : List String) (ret : List (String × α)), keysSorted ret →
      keysSorted (scanStore rm patt cs (found, ret)).2 := by
  induction cs with
  | nil => intro found ret h; exact h
  | cons p rest ih =>
    obtain ⟨k, v⟩ := p
    intro found ret h
    simp only [scanStore]
    by_cases hc : (!strContains found k && rm patt k) = true
    · rw [if_pos hc]
      exact ih _ _ (keysSorted_listInsert k v h)
    · rw [if_neg hc]
      exact ih _ _ h

theorem keysSorted_scanPatterns (rm : String → String → Bool)
    (counts : List (String × Nat)) (labels : List (String × String)) (ps : List String) :
    ∀ (found : List String) (cret : List (String × Nat)) (lret : List (String × String)),
    keysSorted cret → keysSorted lret →
    keysSorted (scanPatterns rm counts labels ps (found, cret, lret)).2.1 ∧
    keysSorted (scanPatterns rm counts labels ps (found, cret, lret)).2.2 := by
  induction ps with
  | nil => intro found cret lret hc hl; exact ⟨hc, hl⟩
  | cons patt ps ih =>
    intro found cret lret hc hl
    simp only [scanPatterns]
    exact ih _ _ _ (keysSorted_scanStore rm patt counts _ _ hc)
      (keysSorted_scanStore rm patt labels _ _ hl)

theorem keysSorted_matching_rules (rm : String → String → Bool) (patts : List String)
    (counts : List (String × Nat)) (labels : List (String × String)) :
    keysSorted (DebugMetrics.matching_rules_for_regexes rm patts counts labels).1 ∧
    keysSorted (DebugMetrics.matching_rules_for_regexes rm patts counts labels).2 :=
  keysSorted_scanPatterns rm counts labels patts [] [] []
    List.Pairwise.nil List.Pairwise.nil

theorem foldl_includeLabelStep_ok (ll : List (String × String)) :
    ∀ e : EventType, keysSorted e.dependencies → keysSorted e.labelsMap →
      keysSorted (ll.foldl includeLabelStep e).dependencies ∧
      keysSorted (ll.foldl includeLabelStep e).labelsMap := by
  induction ll with
  | nil => exact fun e hd hl => ⟨hd, hl⟩
  | cons kv rest ih =>
    intro e hd hl
    simp only [List.foldl_cons]
    apply ih
    · cases e <;>
        simpa [includeLabelStep, EventType.dependencies] using hd
    · cases e <;>
        simp only [includeLabelStep, EventType.labelsMap] at hl ⊢ <;>
        first
          | exact keysSorted_listInsert _ _ hl
          | exact hl

theorem maybe_find_ok (rm : String → String → Bool) (dm : DebugMetrics)
    (ev : Option EventType) (key : String)
    (h : ∀ e, ev = some e → keysSorted e.dependencies ∧ keysSorted e.labelsMap) :
    ∀ e, dm.maybe_find_matching_rule rm ev key = some e →
      keysSorted e.dependencies ∧ keysSorted e.labelsMap := by
  intro e he
  unfold DebugMetrics.maybe_find_matching_rule at he
  cases hr : listGet key dm.rules with
  | none => rw [hr] at he; exact h e he
  | some patts =>
    rw [hr] at he
    cases hg : dm.get_metric_or_label key with
    | none => rw [hg] at he; exact h e he
    | some val =>
      rw [hg] at he
      cases val with
      | Metric c =>
        simp only [Option.some_inj] at he
        subst he
        exact ⟨(keysSorted_matching_rules rm patts dm.counts dm.labels).1,
          (keysSorted_matching_rules rm patts dm.counts dm.labels).2⟩
      | Label l =>
        simp only [Option.some_inj] at he
        subst he
        exact ⟨(keysSorted_matching_rules rm patts dm.counts dm.labels).1,
          (keysSorted_matching_rules rm patts dm.counts dm.labels).2⟩

theorem maybe_all_events_ok (dm : DebugMetrics) (ev : Option EventType) (key : String)
    (h : ∀ e, ev = some e → keysSorted e.dependencies ∧ keysSorted e.labelsMap) :
    ∀ e, dm.maybe_include_all_events ev key = some e →
      keysSorted e.dependencies ∧ keysSorted e.labelsMap := by
  intro e he
  unfold DebugMetrics.maybe_include_all_events at he
  by_cases hb : (ev.isNone && dm.config.process_all_events) = true
  · rw [if_pos hb] at he
    cases hg : dm.get_metric_or_label key with
    | none => rw [hg] at he; exact h e he
    | some val =>
      rw [hg] at he
      cases val <;> simp only [Option.some_inj] at he <;> subst he <;>
        exact ⟨List.Pairwise.nil, List.Pairwise.nil⟩
  · rw [if_neg hb] at he
    exact h e he

theorem maybe_all_labels_ok (dm : DebugMetrics) (ev : Option EventType)
    (h : ∀ e, ev = some e → keysSorted e.dependencies ∧ keysSorted e.labelsMap) :
    ∀ e, dm.maybe_include_all_labels_with_event ev = some e →
      keysSorted e.dependencies ∧ keysSorted e.labelsMap := by
  intro e he
  unfold DebugMetrics.maybe_include_all_labels_with_event at he
  by_cases hb : dm.config.all_labels_every_event = true
  · rw [if_pos hb] at he
    cases hev : ev with
    | none => rw [hev] at he; exact absurd he (by simp)
    | some e0 =>
      rw [hev] at he
      simp only [Option.some_inj] at he
      subst he
      obtain ⟨hd, hl⟩ := h e0 hev
      exact foldl_includeLabelStep_ok dm.labels e0 hd hl
  · rw [if_neg hb] at he
    exact h e he

theorem promote_ok (e : EventType) (cause : String)
    (hd : keysSorted e.dependencies) (hl : keysSorted e.labelsMap) :
    keysSorted (e.promote_to_cascade cause).dependencies ∧
    keysSorted (e.promote_to_cascade cause).labelsMap := by
  cases e <;>
    simp only [EventType.promote_to_cascade, EventType.dependencies,
      EventType.labelsMap] at hd hl ⊢ <;> exact ⟨hd, hl⟩

theorem pipeline_ok (rm : String → String → Bool) (dm : DebugMetrics) (key : String) :
    ∀ e, dm.maybe_include_all_labels_with_event
        (dm.maybe_include_all_events (dm.maybe_find_matching_rule rm none key) key) = some e →
      keysSorted e.dependencies ∧ keysSorted e.labelsMap := by
  apply maybe_all_labels_ok
  apply maybe_all_events_ok
  apply maybe_find_ok
  intro e he
  exact absurd he (by simp)


theorem pipeline_ok2 (rm : String → String → Bool) (dm : DebugMetrics) (key : String) :
    ∀ e, dm.maybe_include_all_labels_with_event
        (dm.maybe_include_all_events (dm.maybe_find_matching_rule rm none key) key) = some e →
      eventMapsSorted e := by
  intro e he
  exact pipeline_ok rm dm key e he

theorem pushEvent_events_ok (dm : DebugMetrics) (ev : Option EventType)
    (h : ∀ e ∈ dm.events, eventMapsSorted e)
    (hev : ∀ e, ev = some e → eventMapsSorted e) :
    ∀ e ∈ (pushEvent dm ev).events, eventMapsSorted e := by
  cases ev with
  | none => exact h
  | some e0 =>
    intro e he
    rcases List.mem_append.mp he with he | he
    · exact h e he
    · rw [List.mem_singleton.mp he]
      exact hev e0 rfl

theorem cascadeLabelPair_events_ok (rm : String → String → Bool) (key : String)
    (dm : DebugMetrics) (lk lv : String)
    (h : ∀ e ∈ dm.events, eventMapsSorted e) :
    ∀ e ∈ (DebugMetrics.cascadeLabelPair rm key dm lk lv).events, eventMapsSorted e := by
  simp only [DebugMetrics.cascadeLabelPair]
  apply pushEvent_events_ok
  · exact h
  · intro e he
    obtain ⟨a, ha, hfa⟩ := Option.map_eq_some'.mp he
    obtain ⟨hd, hl⟩ := pipeline_ok2 rm _ lk a ha
    rw [← hfa]
    exact promote_ok a key hd hl

theorem foldl_inc_ok (rm : String → String → Bool) (key : String)
    (lbls : List (String × String)) :
    ∀ dm : DebugMetrics, (∀ e ∈ dm.events, eventMapsSorted e) →
    ∀ e ∈ (lbls.foldl (fun dm kv =>
        if kv.1.isEmpty then dm
        else DebugMetrics.cascadeLabelPair rm key dm kv.1 kv.2) dm).events,
      eventMapsSorted e := by
  induction lbls with
  | nil => exact fun dm h => h
  | cons kv rest ih =>
    intro dm h
    simp only [List.foldl_cons]
    by_cases hk : kv.1.isEmpty
    · rw [if_pos hk]
      exact ih dm h
    · rw [if_neg hk]
      exact ih _ (cascadeLabelPair_events_ok rm key dm kv.1 kv.2 h)

theorem foldl_set_ok (rm : String → String → Bool) (key : String)
    (lbls : List (String × String)) :
    ∀ dm : DebugMetrics, (∀ e ∈ dm.events, eventMapsSorted e) →
    ∀ e ∈ (lbls.foldl (fun dm kv =>
        DebugMetrics.cascadeLabelPair rm key dm kv.1 kv.2) dm).events,
      eventMapsSorted e := by
  induction lbls with
  | nil => exact fun dm h => h
  | cons kv rest ih =>
    intro dm h
    simp only [List.foldl_cons]
    exact ih _ (cascadeLabelPair_events_ok rm key dm kv.1 kv.2 h)

theorem applyOp_events_ok (rm : String → String → Bool) (op : Op) (dm : DebugMetrics)
    (h : ∀ e ∈ dm.events, eventMapsSorted e) :
    ∀ e ∈ (applyOp rm dm op).events, eventMapsSorted e := by
  cases op with
  | addRule key patterns =>
    simp only [applyOp, DebugMetrics.add_recording_rule]
    split <;> exact h
  | addDropHook key =>
    exact h
  | incOp key lbls =>
    simp only [applyOp, DebugMetrics.inc]
    exact pushEvent_events_ok _ _ (foldl_inc_ok rm key lbls _ h) (pipeline_ok2 rm _ key)
  | setOp key v lbls =>
    simp only [applyOp, DebugMetrics.set]
    exact pushEvent_events_ok _ _ (foldl_set_ok rm key lbls _ h) (pipeline_ok2 rm _ key)
  | setLabelOp key v =>
    simp only [applyOp, DebugMetrics.set_label]
    exact pushEvent_events_ok _ _ h (pipeline_ok2 rm _ key)

theorem runOps_events_ok (rm : String → String → Bool) (ops : List Op) :
    ∀ dm : DebugMetrics, (∀ e ∈ dm.events, eventMapsSorted e) →
    ∀ e ∈ (runOps rm dm ops).events, eventMapsSorted e := by
  induction ops with
  | nil => exact fun dm h => h
  | cons op rest ih =>
    intro dm h
    exact ih _ (applyOp_events_ok rm op dm h)

/-- C5: every event the engine ever appends to the Event Log has
`dependencies` and `labels` maps whose keys are pairwise distinct, and the
rule-matching scan captures every candidate key at most once, first
matching pattern winning: the result maps are key-sorted, and looking a key
up in them yields exactly the store value when some pattern matches the key
(counters shadowing labels), independent of how many patterns match. -/
theorem claim_C5_first_match_wins (rm : String → String → Bool)
    (cfg : DebugMetricsConfig) (ops : List Op) (patts : List String)
    (counts : List (String × Nat)) (labels : List (String × String)) :
    (∀ e ∈ (runOps rm (DebugMetrics.new cfg) ops).events,
      (e.dependencies.map Prod.fst).Nodup ∧ (e.labelsMap.map Prod.fst).Nodup) ∧
    keysSorted (DebugMetrics.matching_rules_for_regexes rm patts counts labels).1 ∧
    keysSorted (DebugMetrics.matching_rules_for_regexes rm patts counts labels).2 ∧
    (∀ x, listGet x (DebugMetrics.matching_rules_for_regexes rm patts counts labels).1 =
      if patts.any (fun p => rm p x) then listGet x counts else none) ∧
    (∀ x, listGet x (DebugMetrics.matching_rules_for_regexes rm patts counts labels).2 =
      if patts.any (fun p => rm p x) && (listGet x counts).isNone
      then listGet x labels else none) := by
  refine ⟨?_, (keysSorted_matching_rules rm patts counts labels).1,
    (keysSorted_matching_rules rm patts counts labels).2,
    matching_rules_listGet_counts rm patts counts labels,
    matching_rules_listGet_labels rm patts counts labels⟩
  intro e he
  have hok := runOps_events_ok rm ops (DebugMetrics.new cfg)
    (by intro e he; exact absurd he (by simp [DebugMetrics.new])) e he
  exact ⟨keysSorted_nodup hok.1, keysSorted_nodup hok.2⟩

theorem dropWrites_eq_filter (pae : Bool) (dp : List String) (evs : List EventType) :
    dropWrites pae dp evs =
      (evs.filter (fun e => pae || strContains dp (displayKey e))).map
        (fun e => SinkOp.write (eventLine e)) := by
  induction evs with
  | nil => rfl
  | cons e rest ih =>
    cases e <;>
      simp only [dropWrites, displayKey, eventLine, List.filter_cons] <;>
      split <;> simp_all <;> rfl

/-- C6: teardown writes a line for an event iff `process_all_events` is on
or the DropPrintSet holds the event's display key, lines appear in Event
Log order, and the sink receives exactly one flush, as the last operation,
even when no line is written. -/
theorem claim_C6_drop_filter (dm : DebugMetrics) :
    dm.dropFlush =
      (dm.events.filter (fun e =>
        dm.config.process_all_events || strContains dm.drop_print (displayKey e))).map
        (fun e => SinkOp.write (eventLine e)) ++ [SinkOp.flush] ∧
    dm.dropFlush.count SinkOp.flush = 1 ∧
    dm.dropFlush.getLast? = some SinkOp.flush := by
  refine ⟨?_, ?_, ?_⟩
  · unfold DebugMetrics.dropFlush
    rw [dropWrites_eq_filter]
  · unfold DebugMetrics.dropFlush
    rw [dropWrites_eq_filter, List.count_append]
    have : ((dm.events.filter (fun e =>
        dm.config.process_all_events || strContains dm.drop_print (displayKey e))).map
        (fun e => SinkOp.write (eventLine e))).count SinkOp.flush = 0 := by
      rw [List.count_eq_zero]
      intro hmem
      rcases List.mem_map.mp hmem with ⟨e, _, habs⟩
      exact SinkOp.noConfusion habs
    rw [this]
    rfl
  · unfold DebugMetrics.dropFlush
    rw [List.getLast?_concat]

/-- C7: `events_for_key` returns, in Event Log order, exactly the events
whose primary key is the query (metric for MetricChange, label for
LabelChange) and, for cascade variants, also those whose cause is the
query. -/
theorem claim_C7_events_for_key (dm : DebugMetrics) (k : String) :
    dm.events_for_key k = dm.events.filter (eventMatchesKey k) ∧
    (dm.events_for_key k).Sublist dm.events ∧
    (∀ e : EventType, eventMatchesKey k e = true ↔ KeyRelevant k e) := by
  refine ⟨rfl, List.filter_sublist _, ?_⟩
  intro e
  cases e <;> simp [eventMatchesKey, KeyRelevant]

theorem maybe_find_none_quiet (rm : String → String → Bool) (dm : DebugMetrics)
    (ev : Option EventType) (key : String) (hr : dm.rules = []) :
    dm.maybe_find_matching_rule rm ev key = ev := by
  unfold DebugMetrics.maybe_find_matching_rule
  rw [hr]
  rfl

theorem maybe_all_events_quiet (dm : DebugMetrics) (key : String)
    (hp : dm.config.process_all_events = false) :
    dm.maybe_include_all_events none key = none := by
  unfold DebugMetrics.maybe_include_all_events
  rw [hp]
  simp

theorem maybe_all_labels_none (dm : DebugMetrics) :
    dm.maybe_include_all_labels_with_event none = none := by
  unfold DebugMetrics.maybe_include_all_labels_with_event
  split <;> rfl

theorem cascadeLabelPair_quiet (rm : String → String → Bool) (key : String)
    (dm : DebugMetrics) (lk lv : String)
    (hr : dm.rules = []) (hp : dm.config.process_all_events = false) :
    (DebugMetrics.cascadeLabelPair rm key dm lk lv).rules = [] ∧
    (DebugMetrics.cascadeLabelPair rm key dm lk lv).config = dm.config ∧
    (DebugMetrics.cascadeLabelPair rm key dm lk lv).events = dm.events := by
  simp only [DebugMetrics.cascadeLabelPair]
  rw [maybe_find_none_quiet rm { dm with labels := listInsert lk lv dm.labels } none lk hr,
    maybe_all_events_quiet { dm with labels := listInsert lk lv dm.labels } lk hp,
    maybe_all_labels_none]
  exact ⟨hr, rfl, rfl⟩

theorem foldl_inc_quiet (rm : String → String → Bool) (key : String)
    (lbls : List (String × String)) :
    ∀ dm : DebugMetrics, dm.rules = [] → dm.config.process_all_events = false →
    (lbls.foldl (fun dm kv =>
        if kv.1.isEmpty then dm
        else DebugMetrics.cascadeLabelPair rm key dm kv.1 kv.2) dm).rules = [] ∧
    (lbls.foldl (fun dm kv =>
        if kv.1.isEmpty then dm
        else DebugMetrics.cascadeLabelPair rm key dm kv.1 kv.2) dm).config.process_all_events = false ∧
    (lbls.foldl (fun dm kv =>
        if kv.1.isEmpty then dm
        else DebugMetrics.cascadeLabelPair rm key dm kv.1 kv.2) dm).events = dm.events := by
  induction lbls with
  | nil => exact fun dm hr hp => ⟨hr, hp, rfl⟩
  | cons kv rest ih =>
    intro dm hr hp
    simp only [List.foldl_cons]
    by_cases hk : kv.1.isEmpty
    · rw [if_pos hk]
      exact ih dm hr hp
    · rw [if_neg hk]
      obtain ⟨h1, h2, h3⟩ := cascadeLabelPair_quiet rm key dm kv.1 kv.2 hr hp
      obtain ⟨g1, g2, g3⟩ := ih _ h1 (by rw [h2]; exact hp)
      exact ⟨g1, g2, by rw [g3, h3]⟩

theorem foldl_set_quiet (rm : String → String → Bool) (key : String)
    (lbls : List (String × String)) :
    ∀ dm : DebugMetrics, dm.rules = [] → dm.config.process_all_events = false →
    (lbls.foldl (fun dm kv =>
        DebugMetrics.cascadeLabelPair rm key dm kv.1 kv.2) dm).rules = [] ∧
    (lbls.foldl (fun dm kv =>
        DebugMetrics.cascadeLabelPair rm key dm kv.1 kv.2) dm).config.process_all_events = false ∧
    (lbls.foldl (fun dm kv =>
        DebugMetrics.cascadeLabelPair rm key dm kv.1 kv.2) dm).events = dm.events := by
  induction lbls with
  | nil => exact fun dm hr hp => ⟨hr, hp, rfl⟩
  | cons kv rest ih =>
    intro dm hr hp
    simp only [List.foldl_cons]
    obtain ⟨h1, h2, h3⟩ := cascadeLabelPair_quiet rm key dm kv.1 kv.2 hr hp
    obtain ⟨g1, g2, g3⟩ := ih _ h1 (by rw [h2]; exact hp)
    exact ⟨g1, g2, by rw [g3, h3]⟩

theorem inc_quiet (rm : String → String → Bool) (dm : DebugMetrics) (key : String)
    (lbls : List (String × String))
    (hr : dm.rules = []) (hp : dm.config.process_all_events = false) :
    (dm.inc rm key lbls).rules = [] ∧
    (dm.inc rm key lbls).config.process_all_events = false ∧
    (dm.inc rm key lbls).events = dm.events := by
  simp only [DebugMetrics.inc]
  obtain ⟨h1, h2, h3⟩ := foldl_inc_quiet rm key lbls
    { dm with counts := listInsert key ((listGet key dm.counts).getD 0 + 1) dm.counts }
    hr hp
  rw [maybe_find_none_quiet rm _ none key h1, maybe_all_events_quiet _ key h2,
    maybe_all_labels_none]
  exact ⟨h1, h2, h3⟩

theorem set_quiet (rm : String → String → Bool) (dm : DebugMetrics) (key : String)
    (v : Nat) (lbls : List (String × String))
    (hr : dm.rules = []) (hp : dm.config.process_all_events = false) :
    (dm.set rm key v lbls).rules = [] ∧
    (dm.set rm key v lbls).config.process_all_events = false ∧
    (dm.set rm key v lbls).events = dm.events := by
  simp only [DebugMetrics.set]
  obtain ⟨h1, h2, h3⟩ := foldl_set_quiet rm key lbls
    { dm with counts := listInsert key v dm.counts } hr hp
  rw [maybe_find_none_quiet rm _ none key h1, maybe_all_events_quiet _ key h2,
    maybe_all_labels_none]
  exact ⟨h1, h2, h3⟩

theorem runOps_quiet (rm : String → String → Bool) (ops : List Op)
    (hops : ∀ op ∈ ops, op.isIncOrSet = true) :
    ∀ dm : DebugMetrics, dm.rules = [] → dm.config.process_all_events = false →
    (runOps rm dm ops).events = dm.events := by
  induction ops with
  | nil => exact fun dm _ _ => rfl
  | cons op rest ih =>
    intro dm hr hp
    have hop : op.isIncOrSet = true := hops op (List.mem_cons_self op rest)
    have hrest : ∀ o ∈ rest, o.isIncOrSet = true :=
      fun o ho => hops o (List.mem_cons_of_mem op ho)
    cases op with
    | addRule key patterns => simp [Op.isIncOrSet] at hop
    | addDropHook key => simp [Op.isIncOrSet] at hop
    | incOp key lbls =>
      obtain ⟨h1, h2, h3⟩ := inc_quiet rm dm key lbls hr hp
      simp only [runOps, applyOp]
      rw [(ih hrest) _ h1 h2, h3]
    | setOp key v lbls =>
      obtain ⟨h1, h2, h3⟩ := set_quiet rm dm key v lbls hr hp
      simp only [runOps, applyOp]
      rw [(ih hrest) _ h1 h2, h3]
    | setLabelOp key v => simp [Op.isIncOrSet] at hop

/-- C4: with no recording rules and `process_all_events` off, any sequence
of `inc`/`set` calls leaves the Event Log empty, and `events_for_key`
returns the empty list for every key. -/
theorem claim_C4_quiet_engine (rm : String → String → Bool) (cfg : DebugMetricsConfig)
    (ops : List Op)
    (hpae : cfg.process_all_events = false)
    (hops : ∀ op ∈ ops, op.isIncOrSet = true) :
    (runOps rm (DebugMetrics.new cfg) ops).events = [] ∧
    (∀ k, (runOps rm (DebugMetrics.new cfg) ops).events_for_key k = []) := by
  have h : (runOps rm (DebugMetrics.new cfg) ops).events = [] := by
    rw [runOps_quiet rm ops hops (DebugMetrics.new cfg) rfl hpae]
    rfl
  refine ⟨h, fun k => ?_⟩
  unfold DebugMetrics.events_for_key
  rw [h]
  rfl

/-- Witness for C4 at a concrete call sequence. -/
theorem claim_C4_quiet_engine_witness :
    (runOps reDotPlus (DebugMetrics.new cfgOff) opsQuiet).events = [] ∧
    (∀ k, (runOps reDotPlus (DebugMetrics.new cfgOff) opsQuiet).events_for_key k = []) :=
  claim_C4_quiet_engine reDotPlus cfgOff opsQuiet rfl (by decide)

theorem pushEvent_setRLC (b : Bool) (dm : DebugMetrics) (ev : Option EventType) :
    pushEvent (setRLC b dm) ev = setRLC b (pushEvent dm ev) := by
  cases ev <;> rfl

theorem cascadeLabelPair_setRLC (rm : String → String → Bool) (key : String)
    (b : Bool) (dm : DebugMetrics) (lk lv : String) :
    DebugMetrics.cascadeLabelPair rm key (setRLC b dm) lk lv =
      setRLC b (DebugMetrics.cascadeLabelPair rm key dm lk lv) :=
  pushEvent_setRLC b { dm with labels := listInsert lk lv dm.labels } _

theorem set_label_setRLC (rm : String → String → Bool) (b : Bool)
    (dm : DebugMetrics) (key v : String) :
    (setRLC b dm).set_label rm key v = setRLC b (dm.set_label rm key v) :=
  pushEvent_setRLC b { dm with labels := listInsert key v dm.labels } _

theorem add_rule_setRLC (b : Bool) (dm : DebugMetrics) (metric : String)
    (additional : List String) :
    (setRLC b dm).add_recording_rule metric additional =
      setRLC b (dm.add_recording_rule metric additional) := by
  unfold DebugMetrics.add_recording_rule
  have h : listGet metric (setRLC b dm).rules = listGet metric dm.rules := rfl
  rw [h]
  cases listGet metric dm.rules <;> rfl

theorem foldl_inc_setRLC (rm : String → String → Bool) (key : String) (b : Bool)
    (lbls : List (String × String)) :
    ∀ dm : DebugMetrics,
    lbls.foldl (fun dm kv =>
        if kv.1.isEmpty then dm
        else DebugMetrics.cascadeLabelPair rm key dm kv.1 kv.2) (setRLC b dm) =
      setRLC b (lbls.foldl (fun dm kv =>
        if kv.1.isEmpty then dm
        else DebugMetrics.cascadeLabelPair rm key dm kv.1 kv.2) dm) := by
  induction lbls with
  | nil => exact fun dm => rfl
  | cons kv rest ih =>
    intro dm
    simp only [List.foldl_cons]
    by_cases hk : kv.1.isEmpty
    · rw [if_pos hk, if_pos hk]
      exact ih dm
    · rw [if_neg hk, if_neg hk, cascadeLabelPair_setRLC]
      exact ih _

theorem foldl_set_setRLC (rm : String → String → Bool) (key : String) (b : Bool)
    (lbls : List (String × String)) :
    ∀ dm : DebugMetrics,
    lbls.foldl (fun dm kv =>
        DebugMetrics.cascadeLabelPair rm key dm kv.1 kv.2) (setRLC b dm) =
      setRLC b (lbls.foldl (fun dm kv =>
        DebugMetrics.cascadeLabelPair rm key dm kv.1 kv.2) dm) := by
  induction lbls with
  | nil => exact fun dm => rfl
  | cons kv rest ih =>
    intro dm
    simp only [List.foldl_cons]
    rw [cascadeLabelPair_setRLC]
    exact ih _

theorem inc_setRLC (rm : String → String → Bool) (b : Bool) (dm : DebugMetrics)
    (key : String) (lbls : List (String × String)) :
    (setRLC b dm).inc rm key lbls = setRLC b (dm.inc rm key lbls) := by
  have h2 := congrArg (fun d : DebugMetrics => pushEvent d
      (d.maybe_include_all_labels_with_event
        (d.maybe_include_all_events (d.maybe_find_matching_rule rm none key) key)))
    (foldl_inc_setRLC rm key b lbls
      { dm with counts := listInsert key ((listGet key dm.counts).getD 0 + 1) dm.counts })
  exact h2.trans (pushEvent_setRLC b _ _)

theorem set_setRLC (rm : String → String → Bool) (b : Bool) (dm : DebugMetrics)
    (key : String) (v : Nat) (lbls : List (String × String)) :
    (setRLC b dm).set rm key v lbls = setRLC b (dm.set rm key v lbls) := by
  have h2 := congrArg (fun d : DebugMetrics => pushEvent d
      (d.maybe_include_all_labels_with_event
        (d.maybe_include_all_events (d.maybe_find_matching_rule rm none key) key)))
    (foldl_set_setRLC rm key b lbls { dm with counts := listInsert key v dm.counts })
  exact h2.trans (pushEvent_setRLC b _ _)

theorem applyOp_setRLC (rm : String → String → Bool) (b : Bool) (op : Op)
    (dm : DebugMetrics) :
    applyOp rm (setRLC b dm) op = setRLC b (applyOp rm dm op) := by
  cases op with
  | addRule key patterns => exact add_rule_setRLC b dm key patterns
  | addDropHook key => rfl
  | incOp key lbls => exact inc_setRLC rm b dm key lbls
  | setOp key v lbls => exact set_setRLC rm b dm key v lbls
  | setLabelOp key v => exact set_label_setRLC rm b dm key v

theorem runOps_setRLC (rm : String → String → Bool) (b : Bool) (ops : List Op) :
    ∀ dm : DebugMetrics, runOps rm (setRLC b dm) ops = setRLC b (runOps rm dm ops) := by
  induction ops with
  | nil => exact fun dm => rfl
  | cons op rest ih =>
    intro dm
    have h : runOps rm (setRLC b dm) (op :: rest)
        = runOps rm (applyOp rm (setRLC b dm) op) rest := rfl
    rw [h, applyOp_setRLC, ih]
    rfl

/-- C9: the `record_label_changes` flag is a no-op: two runs of the same
operation sequence that differ only in that flag produce the same Event
Log, the same `events_for_key` answers, and the same teardown trace. -/
theorem claim_C9_record_label_changes_noop (rm : String → String → Bool)
    (ops : List Op) (b1 b2 b2p b3 : Bool) :
    (runOps rm (DebugMetrics.new ⟨b1, b2, b3⟩) ops).events =
      (runOps rm (DebugMetrics.new ⟨b1, b2p, b3⟩) ops).events ∧
    (∀ k, (runOps rm (DebugMetrics.new ⟨b1, b2, b3⟩) ops).events_for_key k =
      (runOps rm (DebugMetrics.new ⟨b1, b2p, b3⟩) ops).events_for_key k) ∧
    (runOps rm (DebugMetrics.new ⟨b1, b2, b3⟩) ops).dropFlush =
      (runOps rm (DebugMetrics.new ⟨b1, b2p, b3⟩) ops).dropFlush := by
  have h : runOps rm (DebugMetrics.new ⟨b1, b2p, b3⟩) ops =
      setRLC b2p (runOps rm (DebugMetrics.new ⟨b1, b2, b3⟩) ops) := by
    have h0 : DebugMetrics.new ⟨b1, b2p, b3⟩ =
        setRLC b2p (DebugMetrics.new ⟨b1, b2, b3⟩) := rfl
    rw [h0, runOps_setRLC]
  rw [h]
  exact ⟨rfl, fun k => rfl, rfl⟩

/-- C8: on a fresh engine with `process_all_events` on and no rules, two
`inc(k, [])` calls log exactly two MetricChange events for `k`, counts 1
then 2, with empty dependency and label maps. -/
theorem claim_C8_double_inc (rm : String → String → Bool) (k : String) (b2 b3 : Bool) :
    (((DebugMetrics.new ⟨true, b2, b3⟩).inc rm k []).inc rm k []).events =
      [EventType.MetricChange k 1 [] [], EventType.MetricChange k 2 [] []] := by
  cases b3 <;>
    simp [DebugMetrics.new, DebugMetrics.inc, DebugMetrics.maybe_find_matching_rule,
      DebugMetrics.maybe_include_all_events, DebugMetrics.maybe_include_all_labels_with_event,
      DebugMetrics.get_metric_or_label, pushEvent, listGet, listInsert, strLt_irrefl]

theorem cascadeLabelPair_frame (rm : String → String → Bool) (key : String)
    (dm : DebugMetrics) (lk lv : String) :
    (DebugMetrics.cascadeLabelPair rm key dm lk lv).rules = dm.rules ∧
    (DebugMetrics.cascadeLabelPair rm key dm lk lv).counts = dm.counts ∧
    (DebugMetrics.cascadeLabelPair rm key dm lk lv).config = dm.config := by
  simp only [DebugMetrics.cascadeLabelPair, pushEvent]
  split <;> exact ⟨rfl, rfl, rfl⟩

theorem foldl_inc_frame (rm : String → String → Bool) (key : String)
    (lbls : List (String × String)) :
    ∀ dm : DebugMetrics,
    (lbls.foldl (fun dm kv =>
        if kv.1.isEmpty then dm
        else DebugMetrics.cascadeLabelPair rm key dm kv.1 kv.2) dm).rules = dm.rules ∧
    (lbls.foldl (fun dm kv =>
        if kv.1.isEmpty then dm
        else DebugMetrics.cascadeLabelPair rm key dm kv.1 kv.2) dm).counts = dm.counts ∧
    (lbls.foldl (fun dm kv =>
        if kv.1.isEmpty then dm
        else DebugMetrics.cascadeLabelPair rm key dm kv.1 kv.2) dm).config = dm.config := by
  induction lbls with
  | nil => exact fun dm => ⟨rfl, rfl, rfl⟩
  | cons kv rest ih =>
    intro dm
    simp only [List.foldl_cons]
    by_cases hk : kv.1.isEmpty
    · rw [if_pos hk]
      exact ih dm
    · rw [if_neg hk]
      obtain ⟨h1, h2, h3⟩ := cascadeLabelPair_frame rm key dm kv.1 kv.2
      obtain ⟨g1, g2, g3⟩ := ih (DebugMetrics.cascadeLabelPair rm key dm kv.1 kv.2)
      exact ⟨g1.trans h1, g2.trans h2, g3.trans h3⟩

theorem foldl_set_frame (rm : String → String → Bool) (key : String)
    (lbls : List (String × String)) :
    ∀ dm : DebugMetrics,
    (lbls.foldl (fun dm kv =>
        DebugMetrics.cascadeLabelPair rm key dm kv.1 kv.2) dm).rules = dm.rules ∧
    (lbls.foldl (fun dm kv =>
        DebugMetrics.cascadeLabelPair rm key dm kv.1 kv.2) dm).counts = dm.counts ∧
    (lbls.foldl (fun dm kv =>
        DebugMetrics.cascadeLabelPair rm key dm kv.1 kv.2) dm).config = dm.config := by
  induction lbls with
  | nil => exact fun dm => ⟨rfl, rfl, rfl⟩
  | cons kv rest ih =>
    intro dm
    simp only [List.foldl_cons]
    obtain ⟨h1, h2, h3⟩ := cascadeLabelPair_frame rm key dm kv.1 kv.2
    obtain ⟨g1, g2, g3⟩ := ih (DebugMetrics.cascadeLabelPair rm key dm kv.1 kv.2)
    exact ⟨g1.trans h1, g2.trans h2, g3.trans h3⟩

theorem foldl_includeLabelStep_metric (ll : List (String × String)) :
    ∀ (m : String) (c : Nat) (d : List (String × Nat)) (l : List (String × String)),
    ∃ lp, ll.foldl includeLabelStep (EventType.MetricChange m c d l) =
      EventType.MetricChange m c d lp := by
  induction ll with
  | nil => exact fun m c d l => ⟨l, rfl⟩
  | cons kv rest ih =>
    intro m c d l
    simp only [List.foldl_cons, includeLabelStep]
    exact ih m c d (listInsert kv.1 kv.2 l)

theorem enrich_metric_shape (dm : DebugMetrics) (m : String) (c : Nat)
    (d : List (String × Nat)) (l : List (String × String)) :
    ∃ lp, dm.maybe_include_all_labels_with_event (some (EventType.MetricChange m c d l)) =
      some (EventType.MetricChange m c d lp) := by
  unfold DebugMetrics.maybe_include_all_labels_with_event
  split
  · obtain ⟨lp, hlp⟩ := foldl_includeLabelStep_metric dm.labels m c d l
    exact ⟨lp, by simp only [hlp]⟩
  · exact ⟨l, rfl⟩

theorem pipeline_metric (rm : String → String → Bool) (dm : DebugMetrics) (key : String)
    (patts : List String) (c : Nat)
    (hrule : listGet key dm.rules = some patts)
    (hcount : listGet key dm.counts = some c)
    (hmatch : patts.any (fun p => rm p key) = true) :
    ∃ deps ls, dm.maybe_include_all_labels_with_event
        (dm.maybe_include_all_events (dm.maybe_find_matching_rule rm none key) key)
      = some (EventType.MetricChange key c deps ls) ∧ listGet key deps = some c := by
  have hfind : dm.maybe_find_matching_rule rm none key =
      some (EventType.MetricChange key c
        (DebugMetrics.matching_rules_for_regexes rm patts dm.counts dm.labels).1
        (DebugMetrics.matching_rules_for_regexes rm patts dm.counts dm.labels).2) := by
    unfold DebugMetrics.maybe_find_matching_rule DebugMetrics.get_metric_or_label
    rw [hrule, hcount]
  have hdeps : listGet key
      (DebugMetrics.matching_rules_for_regexes rm patts dm.counts dm.labels).1 = some c := by
    rw [matching_rules_listGet_counts, hmatch]
    · simp [hcount]
  rw [hfind]
  have hall : dm.maybe_include_all_events
      (some (EventType.MetricChange key c
        (DebugMetrics.matching_rules_for_regexes rm patts dm.counts dm.labels).1
        (DebugMetrics.matching_rules_for_regexes rm patts dm.counts dm.labels).2)) key =
      some (EventType.MetricChange key c
        (DebugMetrics.matching_rules_for_regexes rm patts dm.counts dm.labels).1
        (DebugMetrics.matching_rules_for_regexes rm patts dm.counts dm.labels).2) := by
    unfold DebugMetrics.maybe_include_all_events
    simp
  rw [hall]
  obtain ⟨lp, hlp⟩ := enrich_metric_shape dm key c
    (DebugMetrics.matching_rules_for_regexes rm patts dm.counts dm.labels).1
    (DebugMetrics.matching_rules_for_regexes rm patts dm.counts dm.labels).2
  exact ⟨_, lp, hlp, hdeps⟩

/-- C10: because the counter mutation lands in the Value Store before rule
matching, a rule on counter key `k` whose pattern set matches `k` itself
makes the primary MetricChange of `inc(k, ..)`/`set(k, v, ..)` carry `k` in
its own dependencies map, bound to the post-mutation count, which is also
the event's count field. -/
theorem claim_C10_rule_self_capture (rm : String → String → Bool) (dm : DebugMetrics)
    (key : String) (lbls : List (String × String)) (v : Nat) (patts : List String)
    (hrule : listGet key dm.rules = some patts)
    (hmatch : patts.any (fun p => rm p key) = true) :
    (∃ deps ls, (dm.inc rm key lbls).events.getLast? =
        some (EventType.MetricChange key ((listGet key dm.counts).getD 0 + 1) deps ls) ∧
      listGet key deps = some ((listGet key dm.counts).getD 0 + 1)) ∧
    (∃ deps ls, (dm.set rm key v lbls).events.getLast? =
        some (EventType.MetricChange key v deps ls) ∧
      listGet key deps = some v) := by
  constructor
  · simp only [DebugMetrics.inc]
    obtain ⟨hr, hc, hcfg⟩ := foldl_inc_frame rm key lbls
      { dm with counts := listInsert key ((listGet key dm.counts).getD 0 + 1) dm.counts }
    obtain ⟨deps, ls, hpipe, hdep⟩ := pipeline_metric rm
      (lbls.foldl (fun dm kv =>
        if kv.1.isEmpty then dm
        else DebugMetrics.cascadeLabelPair rm key dm kv.1 kv.2)
        { dm with counts := listInsert key ((listGet key dm.counts).getD 0 + 1) dm.counts })
      key patts ((listGet key dm.counts).getD 0 + 1)
      (by rw [hr]; exact hrule)
      (by rw [hc, listGet_listInsert]; simp)
      hmatch
    refine ⟨deps, ls, ?_, hdep⟩
    rw [hpipe]
    simp only [pushEvent]
    rw [List.getLast?_concat]
  · simp only [DebugMetrics.set]
    obtain ⟨hr, hc, hcfg⟩ := foldl_set_frame rm key lbls
      { dm with counts := listInsert key v dm.counts }
    obtain ⟨deps, ls, hpipe, hdep⟩ := pipeline_metric rm
      (lbls.foldl (fun dm kv =>
        DebugMetrics.cascadeLabelPair rm key dm kv.1 kv.2)
        { dm with counts := listInsert key v dm.counts })
      key patts v
      (by rw [hr]; exact hrule)
      (by rw [hc, listGet_listInsert]; simp)
      hmatch
    refine ⟨deps, ls, ?_, hdep⟩
    rw [hpipe]
    simp only [pushEvent]
    rw [List.getLast?_concat]

/-- Witness for C10 at a concrete engine with rule ".+" on "m". -/
theorem claim_C10_rule_self_capture_witness :
    (∃ deps ls, (dmRuleOnM.inc reDotPlus "m" []).events.getLast? =
        some (EventType.MetricChange "m" 1 deps ls) ∧
      listGet "m" deps = some 1) ∧
    (∃ deps ls, (dmRuleOnM.set reDotPlus "m" 7 []).events.getLast? =
        some (EventType.MetricChange "m" 7 deps ls) ∧
      listGet "m" deps = some 7) :=
  claim_C10_rule_self_capture reDotPlus dmRuleOnM "m" [] 7 [".+"]
    (by decide) (by decide)

/-- C1: Scenario A — rule ".+" on "stage", drop hook on "stage",
`set_label("stage","zero")`, `inc("metric",[("stage","one")])` on a fresh
all-off engine logs exactly the LabelChange for stage=zero (empty
dependencies, labels {stage: zero}) followed by the CascadeLabelChange
caused by "metric" with dependencies {metric: 1} and labels {stage: one};
teardown writes exactly the two stage lines, in that format, and no line
for "metric". -/
theorem claim_C1_scenario_A :
    dmScenarioA.events =
      [EventType.LabelChange "stage" "zero" [] [("stage", "zero")],
       EventType.CascadeLabelChange "metric" "stage" "one" [("metric", 1)] [("stage", "one")]] ∧
    dmScenarioA.dropFlush =
      [SinkOp.write "stage: zero :: \x7b\"stage\": \"zero\"\x7d\n",
       SinkOp.write "stage (caused by metric): one :: \x7b\"metric\": \"1\", \"stage\": \"one\"\x7d\n",
       SinkOp.flush] := by
  constructor
  · decide
  · decide

/-- C2: the claim fails on `set` — the empty-key label pair of
`set("k", 5, [("", "v")])` is stored in the Label Store and triggers a
CascadeLabelChange whose label is the empty string (the source's `set`
lacks the empty-key skip that `inc` has). -/
theorem claim_C2_set_empty_key_bug :
    dmEmptyKeySet.labels = [("", "v")] ∧
    dmEmptyKeySet.events =
      [EventType.CascadeLabelChange "k" "" "v" [] [],
       EventType.MetricChange "k" 5 [] []] := by
  constructor
  · decide
  · decide

/-- C3 counterexample: in Scenario B with only `process_all_events` on,
the third line written at teardown is not
`metric: 1 :: {"stage": "one"}` as claimed. -/
theorem claim_C3_counterexample :
    dmScenarioB.dropFlush.get? 2 ≠
      some (SinkOp.write "metric: 1 :: \x7b\"stage\": \"one\"\x7d\n") := by
  decide

/-- C3 amended: in Scenario B the cascade label event carries an empty
dependencies map, and teardown writes three lines, the third being
`metric: 1 :: {}` (capture-all events are synthesized with empty
dependency and label maps, so nothing is interpolated into the line). -/
theorem claim_C3_scenario_B_amended :
    dmScenarioB.events =
      [EventType.LabelChange "stage" "zero" [] [],
       EventType.CascadeLabelChange "metric" "stage" "one" [] [],
       EventType.MetricChange "metric" 1 [] []] ∧
    dmScenarioB.dropFlush =
      [SinkOp.write "stage: zero :: \x7b\x7d\n",
       SinkOp.write "stage (caused by metric): one :: \x7b\x7d\n",
       SinkOp.write "metric: 1 :: \x7b\x7d\n",
       SinkOp.flush] := by
  constructor
  · decide
  · decide
